import Mathlib

/-!
Verification of the ELF header / program-header decoder and the
architecture-resolution logic of the `emu` tool (`src/main.rs`).

The file models the program over a byte-level file abstraction: a file is a
`List Nat` of byte values, reads are positional, and every machine-integer
operation of the source that can overflow is embedded with an explicit
`% 2 ^ w` reduction (the release-build wrapping semantics of Rust integer
arithmetic).  Panics and I/O failures of the source are modelled as
`Except.error` results.
-/

/-- Modulus of 16-bit machine arithmetic (`u16` in the source). -/
def U16 : Nat := 2 ^ 16

/-- Modulus of 64-bit machine arithmetic (`u64` in the source). -/
def U64 : Nat := 2 ^ 64

/-- The ELF magic, `static ELF_MAGIC: [u8; 4] = [0x7f, 0x45, 0x4c, 0x46]`. -/
def ELF_MAGIC : List Nat := [0x7f, 0x45, 0x4c, 0x46]

/-- `enum ELFClass { ELFCLASS32 = 1, ELFCLASS64 }` from the source. -/
inductive ELFClass
  | ELFCLASS32
  | ELFCLASS64
deriving DecidableEq, Repr

/-- `ELFClass::try_from` as generated by `TryFromPrimitive` over `repr(u8)`
discriminants 1 and 2. -/
def ELFClass.try_from (v : Nat) : Option ELFClass :=
  if v = 1 then some .ELFCLASS32
  else if v = 2 then some .ELFCLASS64
  else none

/-- `enum Endian { Little = 1, Big }` from the source. -/
inductive Endian
  | Little
  | Big
deriving DecidableEq, Repr

/-- `Endian::try_from` as generated by `TryFromPrimitive` over `repr(u8)`
discriminants 1 and 2. -/
def Endian.try_from (v : Nat) : Option Endian :=
  if v = 1 then some .Little
  else if v = 2 then some .Big
  else none

/-- `enum Machine` from the source, with `repr(u16)` discriminants
X86 = 3, PPC64 = 21, S390 = 22, ARM = 40, X86_64 = 62, AARCH64 = 183,
RISCV = 243. -/
inductive Machine
  | X86
  | PPC64
  | S390
  | ARM
  | X86_64
  | AARCH64
  | RISCV
deriving DecidableEq, Repr

/-- `Machine::try_from` as generated by `TryFromPrimitive`: exactly the seven
listed discriminants succeed, every other value fails. -/
def Machine.try_from (v : Nat) : Option Machine :=
  if v = 3 then some .X86
  else if v = 21 then some .PPC64
  else if v = 22 then some .S390
  else if v = 40 then some .ARM
  else if v = 62 then some .X86_64
  else if v = 183 then some .AARCH64
  else if v = 243 then some .RISCV
  else none

/-- Little-endian value of a byte list (least significant byte first);
this is `<N>::from_le_bytes`. -/
def unpackLE : List Nat → Nat
  | [] => 0
  | b :: r => b + 256 * unpackLE r

/-- The `unpack!` macro of the source: `from_le_bytes` under `Endian::Little`
and `from_be_bytes` (little-endian value of the reversed bytes) under
`Endian::Big`. -/
def unpack (e : Endian) (bs : List Nat) : Nat :=
  match e with
  | .Little => unpackLE bs
  | .Big => unpackLE bs.reverse

/-- Errors of the parser.  Each constructor names one failure mode of
`setup_executable`: `IOError` is a failed `read_exact`/`open` (`?`
propagation), the others are the panic sites of the source, named after the
error taxonomy of the specification. -/
inductive ParseError
  | IOError
  | NotELF
  | InvalidClass
  | InvalidEndian
  | UnsupportedMachine (v : Nat)
  | InvalidLoaderEncoding
deriving DecidableEq, Repr

/-- `read_exact` of `n` bytes at absolute position `pos`: succeeds with
exactly `n` bytes only when the file is long enough, otherwise the read
fails (UnexpectedEof). -/
def readBytes (f : List Nat) (pos n : Nat) : Option (List Nat) :=
  if pos + n ≤ f.length then some ((f.drop pos).take n) else none

/-- `f.take(n).read_to_end`: reads at most `n` bytes starting at `pos`,
silently stopping at end of file (never an error). -/
def readUpTo (f : List Nat) (pos n : Nat) : List Nat :=
  (f.drop pos).take n

/-- `read_exact` with the `?` operator: a short read aborts the parse with
`IOError`. -/
def readE (f : List Nat) (pos n : Nat) : Except ParseError (List Nat) :=
  match readBytes f pos n with
  | some bs => .ok bs
  | none => .error .IOError

/-- Whether a byte is a UTF-8 continuation byte (`0x80`–`0xBF`). -/
def utf8Cont (b : Nat) : Bool := 0x80 ≤ b && b ≤ 0xBF

/-- UTF-8 validity of a byte sequence, as checked by `str::from_utf8`:
ASCII plus two-, three- and four-byte sequences with the standard
restrictions excluding overlong encodings, surrogates and values above
U+10FFFF. -/
def validUtf8 : List Nat → Bool
  | [] => true
  | b :: r =>
    if b ≤ 0x7F then validUtf8 r
    else if 0xC2 ≤ b && b ≤ 0xDF then
      match r with
      | b1 :: r1 => utf8Cont b1 && validUtf8 r1
      | [] => false
    else if b = 0xE0 then
      match r with
      | b1 :: b2 :: r1 => (0xA0 ≤ b1 && b1 ≤ 0xBF) && utf8Cont b2 && validUtf8 r1
      | _ => false
    else if (0xE1 ≤ b && b ≤ 0xEC) || b = 0xEE || b = 0xEF then
      match r with
      | b1 :: b2 :: r1 => utf8Cont b1 && utf8Cont b2 && validUtf8 r1
      | _ => false
    else if b = 0xED then
      match r with
      | b1 :: b2 :: r1 => (0x80 ≤ b1 && b1 ≤ 0x9F) && utf8Cont b2 && validUtf8 r1
      | _ => false
    else if b = 0xF0 then
      match r with
      | b1 :: b2 :: b3 :: r1 =>
          (0x90 ≤ b1 && b1 ≤ 0xBF) && utf8Cont b2 && utf8Cont b3 && validUtf8 r1
      | _ => false
    else if 0xF1 ≤ b && b ≤ 0xF3 then
      match r with
      | b1 :: b2 :: b3 :: r1 => utf8Cont b1 && utf8Cont b2 && utf8Cont b3 && validUtf8 r1
      | _ => false
    else if b = 0xF4 then
      match r with
      | b1 :: b2 :: b3 :: r1 =>
          (0x80 ≤ b1 && b1 ≤ 0x8F) && utf8Cont b2 && utf8Cont b3 && validUtf8 r1
      | _ => false
    else false

/-- `const PT_LOAD: u32 = 1`. -/
def PT_LOAD : Nat := 1

/-- `const PT_INTERP: u32 = 3`. -/
def PT_INTERP : Nat := 3

/-- `const PF_X: u32 = 1 << 0`. -/
def PF_X : Nat := 1

/-- `const PF_R: u32 = 1 << 2`. -/
def PF_R : Nat := 4

/-- `const PF_RX: u32 = PF_R | PF_X`. -/
def PF_RX : Nat := 5

/-- The mutable scan variables of the program-header loop:
`load_address`, `virtual_address` and `interpreter_size`, all initially 0. -/
structure ScanState where
  load_address : Nat
  virtual_address : Nat
  interpreter_size : Nat
deriving DecidableEq, Repr

/-- Outcome of one iteration of the program-header loop: continue with the
updated variables, `break` with the updated variables, or abort with an
error. -/
inductive StepResult
  | cont (st : ScanState)
  | stop (st : ScanState)
  | fail (e : ParseError)
deriving DecidableEq, Repr

/-- The flags / virtual-address reads of the `PT_LOAD` branch.  The entry
begins at `pos`; the cursor is at `pos + 4` after the `p_type` read.
32-bit: skip `p_offset` (vaddr at `pos + 8`), then skip
`p_paddr + p_filesz + p_memsz` (flags at `pos + 24`).
64-bit: flags immediately (`pos + 4`), then skip `p_offset`
(vaddr at `pos + 16`). -/
def loadFields (f : List Nat) (ec : ELFClass) (en : Endian) (pos : Nat) :
    Option (Nat × Nat) :=
  match ec with
  | .ELFCLASS32 =>
    match readBytes f (pos + 8) 4, readBytes f (pos + 24) 4 with
    | some pv, some pf => some (unpack en pf, unpack en pv)
    | _, _ => none
  | .ELFCLASS64 =>
    match readBytes f (pos + 4) 4, readBytes f (pos + 16) 8 with
    | some pf, some pv => some (unpack en pf, unpack en pv)
    | _, _ => none

/-- The virtual-address / size reads of the `PT_INTERP` branch.
32-bit: skip `p_offset` (vaddr at `pos + 8`), then seek a further 8 bytes,
which lands the 4-byte size read at `pos + 20` (the `p_memsz` slot of the
Elf32 layout — the cursor arithmetic of the source skips past `p_filesz`).
64-bit: skip `p_flags + p_offset` (vaddr at `pos + 16`), then skip `p_paddr`
(size at `pos + 32`, the `p_filesz` slot). -/
def interpFields (f : List Nat) (ec : ELFClass) (en : Endian) (pos : Nat) :
    Option (Nat × Nat) :=
  match ec with
  | .ELFCLASS32 =>
    match readBytes f (pos + 8) 4, readBytes f (pos + 20) 4 with
    | some pv, some ps => some (unpack en pv, unpack en ps)
    | _, _ => none
  | .ELFCLASS64 =>
    match readBytes f (pos + 16) 8, readBytes f (pos + 32) 8 with
    | some pv, some ps => some (unpack en pv, unpack en ps)
    | _, _ => none

/-- One iteration of the program-header loop, for the entry starting at
absolute position `pos`: read `p_type`; on `PT_LOAD` with flags exactly
`PF_R` or `PF_RX` record the virtual address and `break`; on `PT_INTERP`
record virtual address and size and continue; otherwise skip. -/
def scanStep (f : List Nat) (ec : ELFClass) (en : Endian) (pos : Nat)
    (st : ScanState) : StepResult :=
  match readBytes f pos 4 with
  | none => .fail .IOError
  | some tb =>
    if unpack en tb = PT_LOAD then
      match loadFields f ec en pos with
      | none => .fail .IOError
      | some (load_flags, load_address_maybe) =>
        if load_flags = PF_R ∨ load_flags = PF_RX then
          .stop { st with load_address := load_address_maybe }
        else .cont st
    else if unpack en tb = PT_INTERP then
      match interpFields f ec en pos with
      | none => .fail .IOError
      | some (va, sz) =>
        .cont { st with virtual_address := va, interpreter_size := sz }
    else .cont st

/-- Position of program-header entry `i`:
`f.seek(SeekFrom::Start(pheader_offset + (i * pheader_size) as u64))`.
`i` and `pheader_size` are `u16`, so the product wraps modulo `2 ^ 16`
before being widened to `u64`; the `u64` addition wraps modulo `2 ^ 64`. -/
def entry_pos (phoff phentsize i : Nat) : Nat :=
  (phoff + (i * phentsize) % U16) % U64

/-- The `while i < ph_num` program-header loop, processing the entries with
index `i, i + 1, …` while `rem` counts the remaining iterations
(`ph_num - i`).  Entry `i` is read at `entry_pos phoff phentsize i`. -/
def scanFrom (f : List Nat) (ec : ELFClass) (en : Endian)
    (phoff phentsize : Nat) :
    Nat → Nat → ScanState → Except ParseError ScanState
  | 0, _, st => .ok st
  | rem + 1, i, st =>
    match scanStep f ec en (entry_pos phoff phentsize i) st with
    | .fail e => .error e
    | .stop st2 => .ok st2
    | .cont st2 => scanFrom f ec en phoff phentsize rem (i + 1) st2

/-- The interpreter extraction after the scan: when `interpreter_size ≠ 0`,
seek to `virtual_address - load_address` (wrapping `u64` subtraction),
read up to `interpreter_size - 1` bytes (dropping the trailing null
terminator, silently truncating at end of file) and validate them as UTF-8
(`str::from_utf8(..).unwrap()` panics on invalid bytes). -/
def extractLoader (f : List Nat)
    (load_address virtual_address interpreter_size : Nat) :
    Except ParseError (List Nat) :=
  if interpreter_size ≠ 0 then
    let sz := interpreter_size - 1
    let off := (virtual_address + U64 - load_address) % U64
    let interpreter := readUpTo f off sz
    if validUtf8 interpreter then .ok interpreter
    else .error .InvalidLoaderEncoding
  else .ok []

/-- `struct Executable` of the source; the loader string is kept as its
byte sequence. -/
structure Executable where
  eclass : ELFClass
  endian : Endian
  loader : List Nat
  machine : Machine
deriving DecidableEq, Repr

/-- The identification part of `setup_executable`: read the 16-byte
`e_ident` block, check the magic, decode class (byte 4) and endianness
(byte 5). -/
def decode_ident (f : List Nat) : Except ParseError (ELFClass × Endian) :=
  match readE f 0 16 with
  | .error e => .error e
  | .ok e_ident =>
    if e_ident.take 4 ≠ ELF_MAGIC then .error .NotELF
    else
      match ELFClass.try_from (e_ident.getD 4 0) with
      | none => .error .InvalidClass
      | some exec_class =>
        match Endian.try_from (e_ident.getD 5 0) with
        | none => .error .InvalidEndian
        | some exec_endian => .ok (exec_class, exec_endian)

/-- The machine-type part of `setup_executable`: skip the 2-byte `e_type`
(cursor 16 → 18), read the 2-byte `e_machine`, decode it with the
endianness just determined, and map it through `Machine::try_from`;
unknown values panic carrying the numeric value. -/
def decode_machine (f : List Nat) (en : Endian) : Except ParseError Machine :=
  match readE f 18 2 with
  | .error e => .error e
  | .ok e_machine =>
    match Machine.try_from (unpack en e_machine) with
    | none => .error (.UnsupportedMachine (unpack en e_machine))
    | some m => .ok m

/-- The program-header-metadata part of `setup_executable` (cursor starts
at 20).  32-bit: skip 8 (`e_version + e_entry`), read 4-byte `e_phoff` at
28, skip 10 (`e_shoff + e_flags + e_ehsize`), read 2-byte `e_phentsize` at
42 and 2-byte `e_phnum` at 44.  64-bit: skip 12, read 8-byte `e_phoff` at
32, skip 14, read `e_phentsize` at 54 and `e_phnum` at 56. -/
def decode_phinfo (f : List Nat) (ec : ELFClass) (en : Endian) :
    Except ParseError (Nat × Nat × Nat) :=
  match ec with
  | .ELFCLASS32 =>
    match readE f 28 4, readE f 42 2, readE f 44 2 with
    | .ok e_phoff, .ok e_phentsize, .ok e_phnum =>
      .ok (unpack en e_phoff, unpack en e_phentsize, unpack en e_phnum)
    | .error e, _, _ => .error e
    | _, .error e, _ => .error e
    | _, _, .error e => .error e
  | .ELFCLASS64 =>
    match readE f 32 8, readE f 54 2, readE f 56 2 with
    | .ok e_phoff, .ok e_phentsize, .ok e_phnum =>
      .ok (unpack en e_phoff, unpack en e_phentsize, unpack en e_phnum)
    | .error e, _, _ => .error e
    | _, .error e, _ => .error e
    | _, _, .error e => .error e

/-- `fn setup_executable`: decode the identification block, the machine
type and the program-header metadata, scan the program-header table, and
extract the loader path. -/
def setup_executable (f : List Nat) : Except ParseError Executable :=
  match decode_ident f with
  | .error e => .error e
  | .ok (exec_class, exec_endian) =>
    match decode_machine f exec_endian with
    | .error e => .error e
    | .ok exec_machine =>
      match decode_phinfo f exec_class exec_endian with
      | .error e => .error e
      | .ok (pheader_offset, pheader_size, ph_num) =>
        match scanFrom f exec_class exec_endian pheader_offset pheader_size
            ph_num 0 ⟨0, 0, 0⟩ with
        | .error e => .error e
        | .ok st =>
          match extractLoader f st.load_address st.virtual_address
              st.interpreter_size with
          | .error e => .error e
          | .ok exec_loader =>
            .ok { eclass := exec_class, endian := exec_endian,
                  loader := exec_loader, machine := exec_machine }

/-- The architecture resolver of `run_executable`: the `match` on
`executable.machine` computing `qemu_suffix`.  It is total over `Machine`;
only `PPC64` consults the endianness and only `RISCV`/`S390` consult the
class. -/
def qemu_suffix (m : Machine) (ec : ELFClass) (en : Endian) : String :=
  match m with
  | .AARCH64 => "aarch64"
  | .ARM => "arm"
  | .PPC64 =>
    match en with
    | .Big => "ppc64"
    | .Little => "ppc64le"
  | .RISCV =>
    match ec with
    | .ELFCLASS32 => "riscv32"
    | .ELFCLASS64 => "riscv64"
  | .S390 =>
    match ec with
    | .ELFCLASS32 => "s390"
    | .ELFCLASS64 => "s390x"
  | .X86 => "i386"
  | .X86_64 => "x86_64"

/-- The library-directory suffix used for `--library-path` in
`run_executable`: `"64"` for `ELFCLASS64`, `""` otherwise. -/
def lib_suffix (ec : ELFClass) : String :=
  match ec with
  | .ELFCLASS64 => "64"
  | _ => ""

/-- The decoded `p_type` of the entry starting at `pos`. -/
def ptypeAt (f : List Nat) (en : Endian) (pos : Nat) : Option Nat :=
  (readBytes f pos 4).map (unpack en)

/-- Boolean discriminator for the continue outcome of a scan step. -/
def isCont : StepResult → Bool
  | .cont _ => true
  | _ => false

/-- The scan variables after `k` non-breaking iterations of the loop
(junk after a `fail` or `stop` step, which is never reached in the
theorems below). -/
def stateAt (f : List Nat) (ec : ELFClass) (en : Endian)
    (phoff phentsize : Nat) : Nat → ScanState
  | 0 => ⟨0, 0, 0⟩
  | k + 1 =>
    match scanStep f ec en (entry_pos phoff phentsize k)
        (stateAt f ec en phoff phentsize k) with
    | .cont st => st
    | .stop st => st
    | .fail _ => stateAt f ec en phoff phentsize k

/-- Little-endian encoding of `v` on `n` bytes (test-harness helper for
building concrete ELF images). -/
def le : Nat → Nat → List Nat
  | 0, _ => []
  | n + 1, v => v % 256 :: le n (v / 256)

/-- A 64-byte little-endian ELF64 header with the given `e_machine`,
`e_phoff`, `e_phentsize` and `e_phnum` (test-harness helper). -/
def ehdr64LE (machine phoff phentsize phnum : Nat) : List Nat :=
  ELF_MAGIC ++ [2, 1] ++ List.replicate 10 0 ++
  le 2 2 ++ le 2 machine ++ le 4 1 ++ le 8 0x400000 ++
  le 8 phoff ++ le 8 0 ++ le 4 0 ++ le 2 64 ++ le 2 phentsize ++
  le 2 phnum ++ le 2 0 ++ le 2 0 ++ le 2 0

/-- A 56-byte Elf64 program-header entry (test-harness helper). -/
def phdr64 (ptype pflags poffset pvaddr ppaddr pfilesz pmemsz palign : Nat) :
    List Nat :=
  le 4 ptype ++ le 4 pflags ++ le 8 poffset ++ le 8 pvaddr ++ le 8 ppaddr ++
  le 8 pfilesz ++ le 8 pmemsz ++ le 8 palign

/-- The bytes of the ASCII string `/lib/ld-linux.so.2`. -/
def ldso : List Nat :=
  [0x2f, 0x6c, 0x69, 0x62, 0x2f, 0x6c, 0x64, 0x2d, 0x6c, 0x69, 0x6e, 0x75,
   0x78, 0x2e, 0x73, 0x6f, 0x2e, 0x32]

/-- Synthetic ELF64 little-endian x86_64 binary: a `PT_INTERP` entry whose
19 null-terminated bytes `/lib/ld-linux.so.2\x00` sit at file offset (and
virtual address) 176, followed by a qualifying `PT_LOAD` (flags `PF_RX`)
at virtual address 0. -/
def elfInterp : List Nat :=
  ehdr64LE 62 64 56 2 ++
  phdr64 3 4 176 176 176 19 19 1 ++
  phdr64 1 5 0 0 0 4096 4096 4096 ++
  ldso ++ [0]

/-- ELF64 little-endian binary whose `PT_INTERP` virtual address (0) is
below the load bias (`0x400000` from the qualifying `PT_LOAD`). -/
def elfInterpBelowBias : List Nat :=
  ehdr64LE 62 64 56 2 ++
  phdr64 3 4 0 0 0 19 19 1 ++
  phdr64 1 4 0 0x400000 0 4096 4096 4096

/-- ELF64 little-endian binary whose `PT_INTERP` claims 4 bytes at offset
176 but whose file ends after a single byte `0xC3` there (a truncated
2-byte UTF-8 sequence). -/
def elfTruncBad : List Nat :=
  ehdr64LE 62 64 56 2 ++
  phdr64 3 4 176 176 176 4 4 1 ++
  phdr64 1 5 0 0 0 4096 4096 4096 ++
  [0xC3]

/-- ELF64 little-endian binary like `elfInterp` but truncated after the
first three loader bytes `/li`. -/
def elfTruncAscii : List Nat :=
  ehdr64LE 62 64 56 2 ++
  phdr64 3 4 176 176 176 19 19 1 ++
  phdr64 1 5 0 0 0 4096 4096 4096 ++
  [0x2f, 0x6c, 0x69]

/-- A 20-byte little-endian ELF64 header prefix carrying `e_machine`
value `v` in bytes 18–19. -/
def machineHeaderLE (v : Nat) : List Nat :=
  [0x7f, 0x45, 0x4c, 0x46, 2, 1, 0, 0, 0, 0, 0, 0, 0, 0, 0, 0, 0, 0,
   v % 256, v / 256]

/-- A 20-byte big-endian ELF64 header prefix carrying `e_machine`
value `v` in bytes 18–19. -/
def machineHeaderBE (v : Nat) : List Nat :=
  [0x7f, 0x45, 0x4c, 0x46, 2, 2, 0, 0, 0, 0, 0, 0, 0, 0, 0, 0, 0, 0,
   v / 256, v % 256]

set_option maxRecDepth 100000

/-- Claim C2: for every `(class, machine, endian)` combination of the
architecture-resolution table, the resolver returns exactly the listed
architecture name, and the library-path suffix is `"64"` for the 64-bit
rows and `""` for the 32-bit rows. -/
theorem resolver_matches_table :
    qemu_suffix .AARCH64 .ELFCLASS64 .Little = "aarch64" ∧
    qemu_suffix .AARCH64 .ELFCLASS64 .Big = "aarch64" ∧
    qemu_suffix .ARM .ELFCLASS32 .Little = "arm" ∧
    qemu_suffix .ARM .ELFCLASS32 .Big = "arm" ∧
    qemu_suffix .PPC64 .ELFCLASS64 .Big = "ppc64" ∧
    qemu_suffix .PPC64 .ELFCLASS64 .Little = "ppc64le" ∧
    qemu_suffix .RISCV .ELFCLASS32 .Little = "riscv32" ∧
    qemu_suffix .RISCV .ELFCLASS32 .Big = "riscv32" ∧
    qemu_suffix .RISCV .ELFCLASS64 .Little = "riscv64" ∧
    qemu_suffix .RISCV .ELFCLASS64 .Big = "riscv64" ∧
    qemu_suffix .S390 .ELFCLASS32 .Little = "s390" ∧
    qemu_suffix .S390 .ELFCLASS32 .Big = "s390" ∧
    qemu_suffix .S390 .ELFCLASS64 .Little = "s390x" ∧
    qemu_suffix .S390 .ELFCLASS64 .Big = "s390x" ∧
    qemu_suffix .X86 .ELFCLASS32 .Little = "i386" ∧
    qemu_suffix .X86 .ELFCLASS32 .Big = "i386" ∧
    qemu_suffix .X86_64 .ELFCLASS64 .Little = "x86_64" ∧
    qemu_suffix .X86_64 .ELFCLASS64 .Big = "x86_64" ∧
    lib_suffix .ELFCLASS64 = "64" ∧ lib_suffix .ELFCLASS32 = "" :=
  ⟨rfl, rfl, rfl, rfl, rfl, rfl, rfl, rfl, rfl, rfl, rfl, rfl, rfl, rfl,
   rfl, rfl, rfl, rfl, rfl, rfl⟩

/-- Claim C1, counterexample: on `(class, machine)` combinations absent
from the table the resolver does not fail — a 32-bit AARCH64 descriptor
resolves to `"aarch64"`, a 64-bit ARM descriptor to `"arm"` and a 32-bit
X86_64 descriptor to `"x86_64"` (the `match` on `executable.machine` never
consults the class for these machines). -/
theorem resolver_total_on_unlisted :
    qemu_suffix .AARCH64 .ELFCLASS32 .Little = "aarch64" ∧
    qemu_suffix .ARM .ELFCLASS64 .Little = "arm" ∧
    qemu_suffix .X86_64 .ELFCLASS32 .Little = "x86_64" :=
  ⟨rfl, rfl, rfl⟩

/-- Claim C1, amended: for combinations absent from the table the resolver
does not fail with `UnsupportedCombination`; it ignores the class entirely
for AARCH64, ARM, X86 and X86_64 (and for PPC64, where only the endianness
matters), returning the machine-determined architecture name. -/
theorem resolver_ignores_class_for_unlisted :
    ∀ (ec : ELFClass) (en : Endian),
      qemu_suffix .AARCH64 ec en = "aarch64" ∧
      qemu_suffix .ARM ec en = "arm" ∧
      qemu_suffix .X86 ec en = "i386" ∧
      qemu_suffix .X86_64 ec en = "x86_64" ∧
      qemu_suffix .PPC64 ec .Little = "ppc64le" ∧
      qemu_suffix .PPC64 ec .Big = "ppc64" := by
  intro ec en
  cases ec <;> cases en <;> exact ⟨rfl, rfl, rfl, rfl, rfl, rfl⟩

/-- Claim C8: decoding `e_machine` from bytes `[b0, b1]` little-endian and
from the byte-swapped `[b1, b0]` big-endian yields the same `MachineType`
(the numeric value, hence the `Machine::try_from` result, is identical). -/
theorem machine_decode_endian_swap :
    ∀ b0 b1 : Nat,
      Machine.try_from (unpack .Little [b0, b1]) =
        Machine.try_from (unpack .Big [b1, b0]) := by
  intro b0 b1
  rfl

/-- Claim C3: evaluation of the parser at an input whose interpreter
virtual address (0) is below the load bias (`0x400000`): the subtraction
wraps modulo `2 ^ 64`, the resulting seek lands far beyond the end of the
file, the bounded read returns no bytes, and parsing succeeds with an
empty loader instead of failing. -/
theorem interp_below_bias_wraps_silently :
    setup_executable elfInterpBelowBias =
      .ok ⟨.ELFCLASS64, .Little, [], .X86_64⟩ := rfl

/-- Claim C6, counterexample: a 4-byte file whose first four bytes are not
the ELF magic fails with `IOError` (the 16-byte `e_ident` read comes
first), not with `NotELF`. -/
theorem short_non_elf_is_ioerror :
    List.take 4 [0, 0, 0, 0] ≠ ELF_MAGIC ∧
    setup_executable [0, 0, 0, 0] = .error .IOError :=
  ⟨by decide, rfl⟩

/-- Claim C6, amended: for every file of at least 16 bytes whose first four
bytes are not the ELF magic, decoding fails with `NotELF`, regardless of
every other byte; shorter files fail the initial 16-byte read with
`IOError` before the magic is examined. -/
theorem non_elf_magic_rejected :
    ∀ f : List Nat, 16 ≤ f.length → List.take 4 f ≠ ELF_MAGIC →
      setup_executable f = .error .NotELF := by
  intro f hlen hmagic
  have hread : readE f 0 16 = .ok (List.take 16 f) := by
    simp [readE, readBytes, hlen]
  have htake : List.take 4 (List.take 16 f) = List.take 4 f := by
    rw [List.take_take]
    norm_num
  have hident : decode_ident f = .error .NotELF := by
    unfold decode_ident
    rw [hread]
    simp [htake, hmagic]
  unfold setup_executable
  rw [hident]

/-- Claim C6 witness: a concrete all-zero 16-byte file satisfies the
hypotheses and is rejected as `NotELF`. -/
theorem non_elf_magic_rejected_witness :
    setup_executable (List.replicate 16 0) = .error .NotELF :=
  non_elf_magic_rejected (List.replicate 16 0) (by decide) (by decide)

/-- Claim C5: when the interpreter segment is present with nonzero size and
its virtual address does not underflow the load bias, the extracted loader
is exactly the `sizeInFile - 1` bytes read at the translated file offset
(terminator stripped, no normalization); and on the synthetic ELF64
little-endian binary with `PT_INTERP` bytes `/lib/ld-linux.so.2\x00` and a
qualifying `PT_LOAD` at virtual address 0, the parser returns exactly the
18 bytes `/lib/ld-linux.so.2`. -/
theorem loader_is_exact_interp_bytes :
    (∀ (f : List Nat) (la va sz : Nat), sz ≠ 0 → la ≤ va → va < U64 →
        validUtf8 (readUpTo f (va - la) (sz - 1)) = true →
        extractLoader f la va sz = .ok (readUpTo f (va - la) (sz - 1))) ∧
    setup_executable elfInterp = .ok ⟨.ELFCLASS64, .Little, ldso, .X86_64⟩ := by
  constructor
  · intro f la va sz hsz hla hva hvalid
    have hoff : (va + U64 - la) % U64 = va - la := by
      simp only [U64] at hva ⊢
      omega
    unfold extractLoader
    rw [if_pos hsz]
    simp only [hoff, hvalid, if_pos]
  · rfl

/-- Claim C5 witness: the general statement applied to the synthetic
binary yields exactly the bytes of `/lib/ld-linux.so.2`. -/
theorem loader_is_exact_interp_bytes_witness :
    extractLoader elfInterp 0 176 19 = .ok ldso := by
  have h := loader_is_exact_interp_bytes.1 elfInterp 0 176 19
    (by decide) (by decide) (by decide) (by decide)
  exact h.trans (by rfl)

/-- Claim C9, counterexample: a file whose `PT_INTERP` claims 4 bytes at
offset 176 but which ends after the single byte `0xC3` there does not
"succeed with the truncated prefix": the truncated prefix is invalid UTF-8
and parsing fails with `InvalidLoaderEncoding`. -/
theorem truncated_invalid_utf8_fails :
    elfTruncBad.length < 176 + 3 ∧
    setup_executable elfTruncBad = .error .InvalidLoaderEncoding :=
  ⟨by decide, rfl⟩

/-- Claim C9, amended: the bounded interpreter read never fails with an
`IOError`; when the file ends before `sizeInFile - 1` bytes are available
at the computed offset, the read silently yields the (possibly empty)
remaining suffix, and parsing succeeds with it as the loader when it is
valid UTF-8, failing with `InvalidLoaderEncoding` otherwise.  On an ELF64
binary truncated three bytes into its loader path, parsing succeeds with
loader `/li`. -/
theorem truncated_interp_read_no_ioerror :
    (∀ (f : List Nat) (la va sz : Nat),
        extractLoader f la va sz ≠ .error .IOError) ∧
    (∀ (f : List Nat) (la va sz : Nat), sz ≠ 0 →
        f.length ≤ (va + U64 - la) % U64 + (sz - 1) →
        (validUtf8 (f.drop ((va + U64 - la) % U64)) = true →
          extractLoader f la va sz =
            .ok (f.drop ((va + U64 - la) % U64))) ∧
        (validUtf8 (f.drop ((va + U64 - la) % U64)) = false →
          extractLoader f la va sz = .error .InvalidLoaderEncoding)) ∧
    setup_executable elfTruncAscii =
      .ok ⟨.ELFCLASS64, .Little, [0x2f, 0x6c, 0x69], .X86_64⟩ := by
  refine ⟨?_, ?_, rfl⟩
  · intro f la va sz
    unfold extractLoader
    split
    · dsimp only
      split
      · simp
      · simp
    · simp
  · intro f la va sz hsz hlen
    have htrunc : readUpTo f ((va + U64 - la) % U64) (sz - 1) =
        f.drop ((va + U64 - la) % U64) := by
      unfold readUpTo
      apply List.take_of_length_le
      rw [List.length_drop]
      omega
    constructor
    · intro hvalid
      unfold extractLoader
      rw [if_pos hsz]
      simp only [htrunc, hvalid, if_pos]
    · intro hinvalid
      unfold extractLoader
      rw [if_pos hsz]
      simp only [htrunc, hinvalid]
      rfl

/-- Claim C9 witness: a one-byte file read as a 19-byte interpreter yields
the truncated single-byte loader `/`. -/
theorem truncated_interp_read_no_ioerror_witness :
    extractLoader [0x2f] 0 0 19 = .ok [0x2f] := by
  have h := (truncated_interp_read_no_ioerror.2.1 [0x2f] 0 0 19
    (by decide) (by decide)).1 (by decide)
  exact h.trans (by rfl)

/-- Claim C7: every `e_machine` value outside the closed enumeration
`{3, 21, 22, 40, 62, 183, 243}` is rejected with `UnsupportedMachine`
carrying that numeric value, both little- and big-endian, and is never
mapped to a default architecture. -/
theorem unknown_machine_rejected :
    ∀ v : Nat, v < 65536 →
      v ≠ 3 → v ≠ 21 → v ≠ 22 → v ≠ 40 → v ≠ 62 → v ≠ 183 → v ≠ 243 →
      setup_executable (machineHeaderLE v) =
        .error (.UnsupportedMachine v) ∧
      setup_executable (machineHeaderBE v) =
        .error (.UnsupportedMachine v) := by
  intro v _ h3 h21 h22 h40 h62 h183 h243
  have hm : Machine.try_from v = none := by
    unfold Machine.try_from
    rw [if_neg h3, if_neg h21, if_neg h22, if_neg h40, if_neg h62,
        if_neg h183, if_neg h243]
  have hvle : unpack .Little [v % 256, v / 256] = v := by
    simp only [unpack, unpackLE]
    omega
  have hvbe : unpack .Big [v / 256, v % 256] = v := by
    simp only [unpack, List.reverse_cons, List.reverse_nil, List.nil_append,
      List.cons_append, unpackLE]
    omega
  constructor
  · have hdm : decode_machine (machineHeaderLE v) .Little =
        .error (.UnsupportedMachine v) := by
      have hstep : decode_machine (machineHeaderLE v) .Little =
          match Machine.try_from (unpack .Little [v % 256, v / 256]) with
          | none =>
            .error (.UnsupportedMachine (unpack .Little [v % 256, v / 256]))
          | some m => .ok m := rfl
      rw [hstep, hvle, hm]
    simp only [setup_executable,
      show decode_ident (machineHeaderLE v) = .ok (.ELFCLASS64, .Little)
        from rfl, hdm]
  · have hdm : decode_machine (machineHeaderBE v) .Big =
        .error (.UnsupportedMachine v) := by
      have hstep : decode_machine (machineHeaderBE v) .Big =
          match Machine.try_from (unpack .Big [v / 256, v % 256]) with
          | none =>
            .error (.UnsupportedMachine (unpack .Big [v / 256, v % 256]))
          | some m => .ok m := rfl
      rw [hstep, hvbe, hm]
    simp only [setup_executable,
      show decode_ident (machineHeaderBE v) = .ok (.ELFCLASS64, .Big)
        from rfl, hdm]

/-- A continue outcome of the loop body is `.cont` of some state. -/
theorem isCont_exists {r : StepResult} (h : isCont r = true) :
    ∃ st, r = .cont st := by
  cases r with
  | cont st => exact ⟨st, rfl⟩
  | stop st => simp [isCont] at h
  | fail e => simp [isCont] at h

/-- A continuing loop iteration never changes `load_address`: only the
`break` on a qualifying `PT_LOAD` writes it. -/
theorem scanStep_cont_load_address {f : List Nat} {ec : ELFClass}
    {en : Endian} {pos : Nat} {st st2 : ScanState}
    (h : scanStep f ec en pos st = .cont st2) :
    st2.load_address = st.load_address := by
  unfold scanStep at h
  repeat' split at h
  all_goals simp_all
  all_goals subst h
  all_goals rfl

/-- Unfolding of `stateAt` across a continuing iteration. -/
theorem stateAt_succ_of_cont {f : List Nat} {ec : ELFClass} {en : Endian}
    {phoff s k : Nat} {st2 : ScanState}
    (h : scanStep f ec en (entry_pos phoff s k)
      (stateAt f ec en phoff s k) = .cont st2) :
    stateAt f ec en phoff s (k + 1) = st2 := by
  unfold stateAt
  rw [h]

/-- Unfolding of the loop across a continuing iteration. -/
theorem scanFrom_succ_of_cont {f : List Nat} {ec : ELFClass} {en : Endian}
    {phoff s rem i : Nat} {st st2 : ScanState}
    (h : scanStep f ec en (entry_pos phoff s i) st = .cont st2) :
    scanFrom f ec en phoff s (rem + 1) i st =
      scanFrom f ec en phoff s rem (i + 1) st2 := by
  conv_lhs => unfold scanFrom
  rw [h]

/-- When every examined iteration continues, the loop runs to the end,
returns the threaded state, and never changes `load_address`. -/
theorem scanFrom_all_cont (f : List Nat) (ec : ELFClass) (en : Endian)
    (phoff s : Nat) :
    ∀ n i : Nat,
      (∀ k, i ≤ k → k < i + n →
        isCont (scanStep f ec en (entry_pos phoff s k)
          (stateAt f ec en phoff s k)) = true) →
      scanFrom f ec en phoff s n i (stateAt f ec en phoff s i) =
        .ok (stateAt f ec en phoff s (i + n)) ∧
      (stateAt f ec en phoff s (i + n)).load_address =
        (stateAt f ec en phoff s i).load_address := by
  intro n
  induction n with
  | zero => intro i _; exact ⟨rfl, rfl⟩
  | succ m ih =>
    intro i h
    obtain ⟨st2, hcont⟩ := isCont_exists (h i (le_refl i) (by omega))
    have hstate : stateAt f ec en phoff s (i + 1) = st2 :=
      stateAt_succ_of_cont hcont
    have hih := ih (i + 1) (fun k hk1 hk2 => h k (by omega) (by omega))
    have harith : i + (m + 1) = (i + 1) + m := by omega
    constructor
    · rw [scanFrom_succ_of_cont hcont, ← hstate, harith]
      exact hih.1
    · rw [harith, hih.2, hstate]
      exact scanStep_cont_load_address hcont

/-- When every iteration before `j` continues and iteration `j` breaks,
the loop returns the break state, whatever the total entry count beyond
`j` — entries after `j` are never examined. -/
theorem scanFrom_stop (f : List Nat) (ec : ELFClass) (en : Endian)
    (phoff s : Nat) :
    ∀ (n i j : Nat) (st2 : ScanState),
      i ≤ j → j < i + n →
      (∀ k, i ≤ k → k < j →
        isCont (scanStep f ec en (entry_pos phoff s k)
          (stateAt f ec en phoff s k)) = true) →
      scanStep f ec en (entry_pos phoff s j)
        (stateAt f ec en phoff s j) = .stop st2 →
      scanFrom f ec en phoff s n i (stateAt f ec en phoff s i) =
        .ok st2 := by
  intro n
  induction n with
  | zero => intro i j st2 hij hlt _ _; omega
  | succ m ih =>
    intro i j st2 hij hlt hconts hstop
    rcases Nat.eq_or_lt_of_le hij with heq | hlt2
    · subst heq
      conv_lhs => unfold scanFrom
      rw [hstop]
    · obtain ⟨st3, hcont⟩ := isCont_exists (hconts i (le_refl i) hlt2)
      rw [scanFrom_succ_of_cont hcont, ← stateAt_succ_of_cont hcont]
      exact ih (i + 1) j st2 (by omega) (by omega)
        (fun k hk1 hk2 => hconts k (by omega) hk2) hstop

/-- A `PT_LOAD` entry whose flags are exactly `PF_R` or `PF_RX` makes the
iteration break, recording the entry's virtual address as the load bias. -/
theorem scanStep_load_stop {f : List Nat} {ec : ELFClass} {en : Endian}
    {pos : Nat} (st : ScanState) {fl v : Nat}
    (ht : ptypeAt f en pos = some PT_LOAD)
    (hl : loadFields f ec en pos = some (fl, v))
    (hf : fl = PF_R ∨ fl = PF_RX) :
    scanStep f ec en pos st = .stop { st with load_address := v } := by
  obtain ⟨tb, htb, hun⟩ : ∃ tb, readBytes f pos 4 = some tb ∧
      unpack en tb = PT_LOAD := by
    unfold ptypeAt at ht
    cases hrb : readBytes f pos 4 with
    | none => rw [hrb] at ht; simp at ht
    | some tb =>
      rw [hrb] at ht
      simp only [Option.map_some', Option.some.injEq] at ht
      exact ⟨tb, rfl, ht⟩
  unfold scanStep
  rw [htb]
  simp only [hun, if_true, hl]
  rw [if_pos hf]

/-- Claim C4: the program-header scan stops at the first `PT_LOAD` entry
whose flags are exactly `PF_R` or `PF_RX`, records that entry's virtual
address as the load bias, and examines no further entry (the result is the
same for every declared entry count beyond that index, so in particular a
`PT_INTERP` entry after that point is never observed); and when every one
of the `phnum` entries continues (no qualifying `PT_LOAD` exists), the
load bias of the final state is 0. -/
theorem scan_stops_at_first_qualifying_load :
    ∀ (f : List Nat) (ec : ELFClass) (en : Endian) (phoff s : Nat),
      (∀ j phnum fl v : Nat,
        (∀ k, k < j →
          isCont (scanStep f ec en (entry_pos phoff s k)
            (stateAt f ec en phoff s k)) = true) →
        ptypeAt f en (entry_pos phoff s j) = some PT_LOAD →
        loadFields f ec en (entry_pos phoff s j) = some (fl, v) →
        (fl = PF_R ∨ fl = PF_RX) →
        j < phnum →
        scanFrom f ec en phoff s phnum 0 ⟨0, 0, 0⟩ =
          .ok { stateAt f ec en phoff s j with load_address := v }) ∧
      (∀ phnum : Nat,
        (∀ k, k < phnum →
          isCont (scanStep f ec en (entry_pos phoff s k)
            (stateAt f ec en phoff s k)) = true) →
        scanFrom f ec en phoff s phnum 0 ⟨0, 0, 0⟩ =
          .ok (stateAt f ec en phoff s phnum) ∧
        (stateAt f ec en phoff s phnum).load_address = 0) := by
  intro f ec en phoff s
  constructor
  · intro j phnum fl v hconts ht hl hf hj
    have hstop := scanStep_load_stop (stateAt f ec en phoff s j) ht hl hf
    have h := scanFrom_stop f ec en phoff s phnum 0 j
      { stateAt f ec en phoff s j with load_address := v }
      (Nat.zero_le j) (by omega)
      (fun k _ hk2 => hconts k hk2) hstop
    exact h
  · intro phnum hconts
    have h := scanFrom_all_cont f ec en phoff s phnum 0
      (fun k _ hk2 => hconts k (by omega))
    rw [Nat.zero_add] at h
    exact ⟨h.1, h.2⟩

/-- Claim C4 witness: on the synthetic binary the scan breaks at entry 1
(the qualifying `PT_LOAD`), keeping the `PT_INTERP` data of entry 0 and
recording load bias 0; and a scan of zero entries ends with load bias 0. -/
theorem scan_stops_at_first_qualifying_load_witness :
    scanFrom elfInterp .ELFCLASS64 .Little 64 56 2 0 ⟨0, 0, 0⟩ =
      .ok ⟨0, 176, 19⟩ ∧
    scanFrom elfInterp .ELFCLASS64 .Little 64 56 0 0 ⟨0, 0, 0⟩ =
      .ok ⟨0, 0, 0⟩ := by
  constructor
  · have h := (scan_stops_at_first_qualifying_load elfInterp .ELFCLASS64
      .Little 64 56).1 1 2 5 0
      (fun k hk => by
        have hk0 : k = 0 := by omega
        subst hk0
        decide)
      (by decide) (by decide) (by decide) (by decide)
    exact h
  · exact ((scan_stops_at_first_qualifying_load elfInterp .ELFCLASS64
      .Little 64 56).2 0 (fun k hk => absurd hk (Nat.not_lt_zero k))).1

/-- Claim C10: the loop reads entry `i` at
`(phoff + (i * phentsize) % 2 ^ 16) % 2 ^ 64` — the entry-size product is
16-bit arithmetic — so the position equals `phoff + (i * phentsize) mod
2 ^ 16` whenever that sum fits in a `u64`, and as soon as
`i * phentsize` reaches `2 ^ 16` the entry is read from a wrapped-around
offset strictly below the intended `phoff + i * phentsize`; with
`phentsize = 32768`, entry 2 is read back at offset `phoff` itself. -/
theorem ph_entry_offset_wraps_mod_u16 :
    (∀ (f : List Nat) (ec : ELFClass) (en : Endian)
        (phoff s rem i : Nat) (st : ScanState),
      scanFrom f ec en phoff s (rem + 1) i st =
        match scanStep f ec en (entry_pos phoff s i) st with
        | .fail e => .error e
        | .stop st2 => .ok st2
        | .cont st2 => scanFrom f ec en phoff s rem (i + 1) st2) ∧
    (∀ phoff s i : Nat, phoff + (i * s) % U16 < U64 →
      entry_pos phoff s i = phoff + (i * s) % U16) ∧
    (∀ phoff s i : Nat, U16 ≤ i * s → phoff + i * s < U64 →
      entry_pos phoff s i < phoff + i * s) ∧
    entry_pos 64 32768 2 = 64 := by
  refine ⟨fun f ec en phoff s rem i st => rfl, ?_, ?_, by decide⟩
  · intro phoff s i h
    unfold entry_pos
    exact Nat.mod_eq_of_lt h
  · intro phoff s i h1 h2
    unfold entry_pos
    unfold U16 at h1 ⊢
    unfold U64 at h2 ⊢
    norm_num at h1 h2 ⊢
    omega

/-- Claim C10 witness: with `phentsize = 32768` the position of entry 2
wraps (it is strictly below the intended `phoff + 2 * 32768`), while entry
1 is still read at its intended position. -/
theorem ph_entry_offset_wraps_mod_u16_witness :
    entry_pos 64 32768 2 < 64 + 2 * 32768 ∧
    entry_pos 64 32768 1 = 64 + 32768 := by
  constructor
  · exact ph_entry_offset_wraps_mod_u16.2.2.1 64 32768 2 (by decide)
      (by decide)
  · have h := ph_entry_offset_wraps_mod_u16.2.1 64 32768 1 (by decide)
    exact h.trans (by decide)

/-- Claim C7 witness: machine value 9999 is rejected as
`UnsupportedMachine 9999` in both endiannesses. -/
theorem unknown_machine_rejected_witness :
    setup_executable (machineHeaderLE 9999) =
      .error (.UnsupportedMachine 9999) ∧
    setup_executable (machineHeaderBE 9999) =
      .error (.UnsupportedMachine 9999) :=
  unknown_machine_rejected 9999 (by decide) (by decide) (by decide)
    (by decide) (by decide) (by decide) (by decide) (by decide)
